import Mathlib

/-!
Verification of the flow-control core of lab.js (`flow.js`): the
`prepareNested` helper and the `Sequence`, `Loop` and `Parallel`
components.  Pure parts of the JavaScript source are embedded as Lean
functions; the event-driven parts (child end events, the `Parallel`
completion watcher) are embedded as explicit state-transition relations.
The base `Component` class lives outside the analysed sources; the few
facts about it that are needed (the numeric status scale, the idempotent
`end` method, leaf progress) are modelled from the specification and
marked as such in their doc comments.
-/

/-- The lifecycle status scale of the base component
(`status = { initialized: 0, prepared: 1, running: 2, done: 3 }`).
Modelled from the spec: status is ordered and comparable. -/
inductive Status where
  | initialized
  | prepared
  | running
  | done
deriving DecidableEq, Repr

/-- The numeric value of a status, as in the source's `status` object. -/
def Status.toNat : Status → Nat
  | .initialized => 0
  | .prepared => 1
  | .running => 2
  | .done => 3

/-- The comparison `a < b` on statuses, used by `Parallel.onEnd`
(`c.status < status.done`). -/
def Status.lt (a b : Status) : Bool :=
  a.toNat < b.toNat

/-- A nested child as seen by `prepareNested`: its parent back-reference
(`c.parent`), its identifier (`c.options.id`), and the outcome of its
`prepare(false)` call.  The outcome field is modelled from the spec:
a child's preparation is a future that either resolves or rejects with
an error message. -/
structure NChild where
  parent : Option Nat
  id : Option String
  prepareResult : Except String Unit
deriving Repr

/-- The parent container passed to `prepareNested`: its object reference
and its `options.id`. -/
structure ParentRef where
  ref : Nat
  id : Option String
deriving DecidableEq, Repr

/-- The identifier assigned to the child at index `i`:
`String(i)` when `parent.options.id == null`, otherwise
`[parent.options.id, i].join('_')`. -/
def childId (parentId : Option String) (i : Nat) : String :=
  match parentId with
  | none => toString i
  | some pid => pid ++ "_" ++ toString i

/-- `Promise.all` over a list of already-determined outcomes.
Modelled from the spec: the aggregate resolves when all members resolve
and rejects with the first failure (fail-fast). -/
def promiseAll : List (Except String Unit) → Except String Unit
  | [] => .ok ()
  | r :: rs =>
    match r with
    | .error e => .error e
    | .ok _ => promiseAll rs

/-- `prepareNested(nested, parent)`: sets every child's parent
back-reference to the parent, assigns every child's id from the parent
id and the child's index, and returns `Promise.all` over the children's
`prepare(false)` calls.  The returned pair is (children after the two
`forEach` passes, aggregate preparation outcome). -/
def prepareNested (nested : List NChild) (parent : ParentRef) :
    List NChild × Except String Unit :=
  let withParents := nested.map (fun c => { c with parent := some parent.ref })
  let withIds := withParents.mapIdx
    (fun i c => { c with id := some (childId parent.id i) })
  (withIds, promiseAll (withIds.map (fun c => c.prepareResult)))

/-- `Sequence.onPrepare` ends with `await prepareNested(this.options.content,
this)`, so the aggregate outcome of the children's preparation is the
outcome of the sequence's own preparation step. -/
def Sequence.onPrepareResult (nested : List NChild) (parent : ParentRef) :
    Except String Unit :=
  (prepareNested nested parent).2

/-- `Parallel.onPrepare` calls `prepareNested(this.options.content, this)`
but neither returns nor awaits the promise: the call's aggregate outcome
is discarded and `onPrepare` itself always resolves with `undefined`. -/
def Parallel.onPrepareResult (nested : List NChild) (parent : ParentRef) :
    Except String Unit :=
  let _ := prepareNested nested parent
  .ok ()

/-- A child whose preparation rejects, used to exercise failure paths. -/
def failingChild : NChild :=
  { parent := none, id := none, prepareResult := .error "child prepare failed" }

/-- A child whose preparation resolves. -/
def okChild : NChild :=
  { parent := none, id := none, prepareResult := .ok () }

theorem promiseAll_ok_append (pre : List (Except String Unit))
    (hpre : ∀ r ∈ pre, r = .ok ()) (rest : List (Except String Unit)) :
    promiseAll (pre ++ rest) = promiseAll rest := by
  induction pre with
  | nil => rfl
  | cons r rs ih =>
    have hr : r = .ok () := hpre r (by simp)
    subst hr
    simpa [promiseAll] using ih (fun x hx => hpre x (by simp [hx]))

theorem map_prepareResult_mapIdx (l : List NChild) (f : Nat → Option String) :
    ((l.mapIdx (fun i c => { c with id := f i })).map
      (fun c => c.prepareResult)) = l.map (fun c => c.prepareResult) := by
  induction l generalizing f with
  | nil => simp
  | cons a l ih =>
    rw [List.mapIdx_cons, List.map_cons, List.map_cons]
    exact congrArg _ (ih (fun i => f (i + 1)))

/-- The aggregate outcome computed by `prepareNested` is `Promise.all`
over the children's own preparation outcomes: the parent/id assignment
passes do not touch preparation. -/
theorem prepareNested_snd (nested : List NChild) (parent : ParentRef) :
    (prepareNested nested parent).2 =
      promiseAll (nested.map (fun c => c.prepareResult)) := by
  unfold prepareNested
  simp only
  rw [map_prepareResult_mapIdx (nested.map
    (fun c => { c with parent := some parent.ref }))
    (fun i => some (childId parent.id i)), List.map_map]
  rfl

/-- C1 (counterexample): with a single child whose preparation rejects,
`prepareNested`'s aggregate future rejects, yet `Parallel`'s own
preparation step resolves — the failure does not propagate through
`Parallel.onPrepare`, contradicting the claim that every container's
preparation rejects when a child's prepare rejects. -/
theorem C1_counterexample :
    (prepareNested [failingChild] { ref := 0, id := none }).2 =
      Except.error "child prepare failed" ∧
    Parallel.onPrepareResult [failingChild] { ref := 0, id := none } =
      Except.ok () :=
  ⟨rfl, rfl⟩

/-- C1 (amended): `Sequence.onPrepare` awaits `prepareNested`, so the
first child preparation failure propagates fail-fast through the
aggregate future and aborts the sequence's preparation, and an empty
child list resolves immediately; `Parallel.onPrepare`, in contrast,
drops the aggregate future, so its own preparation step always
resolves regardless of child failures. -/
theorem C1_amended_prepare_propagation (nested : List NChild)
    (parent : ParentRef) :
    (Sequence.onPrepareResult nested parent =
      promiseAll (nested.map (fun c => c.prepareResult))) ∧
    (Sequence.onPrepareResult [] parent = .ok ()) ∧
    (∀ pre c post, (∀ x ∈ pre, x.prepareResult = .ok ()) →
      ∀ e, c.prepareResult = .error e →
      Sequence.onPrepareResult (pre ++ c :: post) parent = .error e) ∧
    (Parallel.onPrepareResult nested parent = .ok ()) := by
  refine ⟨prepareNested_snd nested parent, rfl, ?_, rfl⟩
  intro pre c post hpre e he
  rw [show Sequence.onPrepareResult (pre ++ c :: post) parent =
      (prepareNested (pre ++ c :: post) parent).2 from rfl,
    prepareNested_snd, List.map_append]
  rw [promiseAll_ok_append _ (fun r hr => by
    rcases List.mem_map.mp hr with ⟨x, hx, hxe⟩
    rw [← hxe]
    exact hpre x hx)]
  simp [promiseAll, he]

/-- Witness for C1 (amended) at a concrete input: two ok children before
a failing child, failure message propagated. -/
theorem C1_amended_witness :
    Sequence.onPrepareResult [okChild, okChild, failingChild]
      { ref := 7, id := some "P" } = .error "child prepare failed" := by
  have h := (C1_amended_prepare_propagation
      [okChild, okChild, failingChild] { ref := 7, id := some "P" }).2.2.1
      [okChild, okChild] failingChild []
      (by intro x hx; simp at hx; subst hx; rfl)
      "child prepare failed" rfl
  simpa using h

/-- C5: `prepareNested` keeps the child list's length, sets every child's
parent back-reference to the parent, and assigns child `i` the id
`String(i)` when the parent has no id and `parentId ++ "_" ++ String(i)`
when it does, each exactly once per call (the final value is fully
determined by the parent id and the index). -/
theorem C5_prepare_nested_ids (nested : List NChild) (parent : ParentRef) :
    ((prepareNested nested parent).1.length = nested.length) ∧
    (∀ i c, nested.get? i = some c →
      (prepareNested nested parent).1.get? i =
        some { c with parent := some parent.ref,
                      id := some (childId parent.id i) }) ∧
    (∀ i, childId none i = toString i) ∧
    (∀ pid i, childId (some pid) i = pid ++ "_" ++ toString i) := by
  refine ⟨?_, ?_, fun i => rfl, fun pid i => rfl⟩
  · simp [prepareNested]
  · intro i c hc
    have hi : i < nested.length := List.get?_eq_some.mp hc |>.1
    unfold prepareNested
    simp only
    rw [List.get?_eq_getElem?]
    rw [List.getElem?_mapIdx]
    simp only [List.getElem?_map]
    rw [← List.get?_eq_getElem?, hc]
    rfl

/-- Witness for C5 at a concrete input: parent with id "P", second child
gets id "P_1" and the parent back-reference. -/
theorem C5_witness :
    (prepareNested [okChild, okChild] { ref := 3, id := some "P" }).1.get? 1 =
      some { okChild with parent := some 3, id := some "P_1" } := by
  have h := (C5_prepare_nested_ids [okChild, okChild]
      { ref := 3, id := some "P" }).2.1 1 okChild rfl
  simpa using h

/-- A child as seen by a running `Sequence`: its status, whether the
sequence's bound stepper is currently subscribed to its `after:end`
event, and the reason its `end` was last called with. -/
structure SChild where
  status : Status
  subscribed : Bool
  endReason : Option String
deriving DecidableEq, Repr

/-- The mutable state of a `Sequence`: the container's own status and
end reason, the content list, the position of the iterator built by
`this.options.content.entries()`, and `internals.currentPosition` /
`internals.currentComponent` (the latter represented by the index of
the current child in the content list). -/
structure SeqState where
  status : Status
  endReason : Option String
  content : List SChild
  iterPos : Nat
  currentPosition : Option Nat
  currentComponent : Option Nat
deriving DecidableEq, Repr

/-- Replace the element at index `i` by `f` applied to it; out-of-range
indices leave the list unchanged. -/
def updateAt (l : List α) (i : Nat) (f : α → α) : List α :=
  match l.get? i with
  | none => l
  | some a => l.set i (f a)

/-- `end(reason)` on a child task unit.  Modelled from the spec: ending
a child that is already done is a no-op; otherwise the child becomes
done and records the reason. -/
def SChild.forceEnd (c : SChild) (reason : String) : SChild :=
  if c.status = Status.done then c
  else { c with status := Status.done, endReason := some reason }

/-- The side effects `Sequence.onEnd` performs on the current child, in
order: `off('after:end', stepper)` then `end('abort by sequence')`. -/
inductive SeqAction where
  | off (i : Nat)
  | endChild (i : Nat) (reason : String)
deriving DecidableEq, Repr

/-- `Sequence.onEnd`: if `internals.currentComponent` is set and that
child's status is not `done`, first unsubscribe the stepper from its
`after:end` event, then force-end it with reason "abort by sequence";
otherwise do nothing.  Returned as the ordered list of performed
actions. -/
def Sequence.onEndActions (s : SeqState) : List SeqAction :=
  match s.currentComponent with
  | none => []
  | some i =>
    match s.content.get? i with
    | none => []
    | some c =>
      if c.status ≠ Status.done then
        [SeqAction.off i, SeqAction.endChild i "abort by sequence"]
      else []

/-- Apply one `Sequence.onEnd` side effect to the content list. -/
def applySeqAction (content : List SChild) : SeqAction → List SChild
  | SeqAction.off i => updateAt content i (fun c => { c with subscribed := false })
  | SeqAction.endChild i r => updateAt content i (fun c => c.forceEnd r)

/-- The state after `Sequence.onEnd` has run. -/
def Sequence.onEnd (s : SeqState) : SeqState :=
  { s with content := (Sequence.onEndActions s).foldl applySeqAction s.content }

/-- `end(reason)` on the sequence container itself.  Modelled from the
spec: the base class marks the container done, records the reason and
invokes `onEnd`; ending an already-done container is a no-op. -/
def Sequence.endContainer (s : SeqState) (reason : String) : SeqState :=
  if s.status = Status.done then s
  else Sequence.onEnd { s with status := Status.done, endReason := some reason }

/-- The outcome of one `Sequence.step` call: the thrown state error, the
container ending, or the current child's run future being returned. -/
inductive StepResult where
  | stateError (msg : String)
  | ended (reason : String)
  | ranChild (i : Nat)
deriving DecidableEq, Repr

/-- The apostrophe character, kept out of string literals. -/
def apostropheChar : Char := Char.ofNat 39

/-- The message of the error `Sequence.step` throws when the sequence is
already done. -/
def stepErrorMsg : String :=
  "Sequence ended, can" ++ String.singleton apostropheChar
    ++ "t take any more steps"

/-- `Sequence.step`: throws a state error when the container is already
done; otherwise pulls the next iterator entry; when the iterator is
exhausted, ends the container with reason "completion"; otherwise
records the entry as `currentPosition`/`currentComponent`, subscribes
the stepper to the child's `after:end` event and returns the child's
run future. -/
def Sequence.step (s : SeqState) : SeqState × StepResult :=
  if s.status = Status.done then
    (s, StepResult.stateError stepErrorMsg)
  else
    match s.content.get? s.iterPos with
    | none =>
      (Sequence.endContainer s "completion", StepResult.ended "completion")
    | some _ =>
      ({ s with
          iterPos := s.iterPos + 1,
          currentPosition := some s.iterPos,
          currentComponent := some s.iterPos,
          content := updateAt s.content s.iterPos
            (fun c => { c with subscribed := true }) },
        StepResult.ranChild s.iterPos)

/-- The sequence state right after `onRun` begins, before the first
step: running, cursor at the head of the content list, no current
child. -/
def Sequence.freshState (content : List SChild) : SeqState :=
  { status := Status.running, endReason := none, content := content,
    iterPos := 0, currentPosition := none, currentComponent := none }

theorem updateAt_get?_self (l : List α) (i : Nat) (f : α → α) (a : α)
    (h : l.get? i = some a) : (updateAt l i f).get? i = some (f a) := by
  unfold updateAt
  rw [h]
  have hi : i < l.length := List.get?_eq_some.mp h |>.1
  rw [List.get?_eq_getElem?]
  exact List.getElem?_set_self hi

theorem updateAt_get?_ne (l : List α) (i j : Nat) (f : α → α)
    (hij : j ≠ i) : (updateAt l i f).get? j = l.get? j := by
  unfold updateAt
  cases h : l.get? i with
  | none => rfl
  | some a =>
    rw [List.get?_eq_getElem?, List.get?_eq_getElem?,
      List.getElem?_set_ne (Ne.symm hij)]

/-- C3: `Sequence.step` throws a state error whenever the sequence's
status is done, every time (the state is left unchanged, so repeated
calls fail identically); when not done and the cursor is exhausted it
ends the container with reason "completion"; otherwise it records the
next (index, child) pair as current, subscribes the stepper to that
child's `after:end` event, advances the cursor and returns the child's
run future. -/
theorem C3_sequence_step (s : SeqState) :
    (s.status = Status.done →
      Sequence.step s = (s, StepResult.stateError stepErrorMsg)) ∧
    (s.status ≠ Status.done → s.content.get? s.iterPos = none →
      Sequence.step s =
        (Sequence.endContainer s "completion", StepResult.ended "completion") ∧
      (Sequence.step s).1.status = Status.done ∧
      (Sequence.step s).1.endReason = some "completion") ∧
    (∀ c, s.status ≠ Status.done → s.content.get? s.iterPos = some c →
      (Sequence.step s).2 = StepResult.ranChild s.iterPos ∧
      (Sequence.step s).1.currentPosition = some s.iterPos ∧
      (Sequence.step s).1.currentComponent = some s.iterPos ∧
      (Sequence.step s).1.content.get? s.iterPos =
        some { c with subscribed := true } ∧
      (Sequence.step s).1.iterPos = s.iterPos + 1) := by
  refine ⟨?_, ?_, ?_⟩
  · intro hs
    simp [Sequence.step, hs]
  · intro hs hn
    rw [List.get?_eq_getElem?] at hn
    have h1 : Sequence.step s =
        (Sequence.endContainer s "completion", StepResult.ended "completion") := by
      simp [Sequence.step, hs, hn]
    refine ⟨h1, ?_, ?_⟩
    · rw [h1]
      simp [Sequence.endContainer, hs, Sequence.onEnd]
    · rw [h1]
      simp [Sequence.endContainer, hs, Sequence.onEnd]
  · intro c hs hc
    have hc' := hc
    rw [List.get?_eq_getElem?] at hc'
    have h1 : Sequence.step s =
        ({ s with
            iterPos := s.iterPos + 1,
            currentPosition := some s.iterPos,
            currentComponent := some s.iterPos,
            content := updateAt s.content s.iterPos
              (fun c => { c with subscribed := true }) },
          StepResult.ranChild s.iterPos) := by
      simp [Sequence.step, hs, hc']
    rw [h1]
    exact ⟨rfl, rfl, rfl, updateAt_get?_self _ _ _ _ hc, rfl⟩

/-- A sequence state that is already done, for the C3 witness. -/
def doneSeqDemo : SeqState :=
  { status := Status.done, endReason := some "completion", content := [],
    iterPos := 0, currentPosition := none, currentComponent := none }

/-- Witness for C3 at concrete inputs: stepping a done sequence throws
the state error (and leaves the state unchanged, so a second step
throws it again), and stepping a running sequence with one pending
child returns that child's run. -/
theorem C3_witness :
    (Sequence.step doneSeqDemo =
      (doneSeqDemo, StepResult.stateError stepErrorMsg)) ∧
    (Sequence.step (Sequence.step doneSeqDemo).1 =
      (doneSeqDemo, StepResult.stateError stepErrorMsg)) ∧
    ((Sequence.step (Sequence.freshState
      [{ status := Status.running, subscribed := false, endReason := none }])).2 =
        StepResult.ranChild 0) := by
  have h1 := (C3_sequence_step doneSeqDemo).1 rfl
  have h3 := ((C3_sequence_step (Sequence.freshState
      [{ status := Status.running, subscribed := false, endReason := none }])).2.2
      { status := Status.running, subscribed := false, endReason := none }
      (by decide) rfl).1
  exact ⟨h1, by rw [h1]; exact h1, h3⟩

/-- C6: when the sequence is force-ended, `onEnd` checks the current
child: if one exists and is not done, it first unsubscribes the stepper
from its `after:end` event and then force-ends it with reason
"abort by sequence" (in that order), leaving every other child
untouched; if there is no current child, or the current child is
already done, no child is touched. -/
theorem C6_sequence_forced_end (s : SeqState) :
    (∀ i c, s.currentComponent = some i → s.content.get? i = some c →
      c.status ≠ Status.done →
      Sequence.onEndActions s =
        [SeqAction.off i, SeqAction.endChild i "abort by sequence"] ∧
      (Sequence.onEnd s).content.get? i =
        some { c with subscribed := false, status := Status.done,
                      endReason := some "abort by sequence" } ∧
      (∀ j, j ≠ i → (Sequence.onEnd s).content.get? j = s.content.get? j)) ∧
    (s.currentComponent = none → Sequence.onEnd s = s) ∧
    (∀ i c, s.currentComponent = some i → s.content.get? i = some c →
      c.status = Status.done → Sequence.onEnd s = s) := by
  refine ⟨?_, ?_, ?_⟩
  · intro i c hi hc hne
    have hc' := hc
    rw [List.get?_eq_getElem?] at hc'
    have hact : Sequence.onEndActions s =
        [SeqAction.off i, SeqAction.endChild i "abort by sequence"] := by
      simp [Sequence.onEndActions, hi, hc', hne]
    have hcontent : (Sequence.onEnd s).content =
        updateAt (updateAt s.content i (fun c => { c with subscribed := false }))
          i (fun c => SChild.forceEnd c "abort by sequence") := by
      simp [Sequence.onEnd, hact, applySeqAction]
    refine ⟨hact, ?_, ?_⟩
    · rw [hcontent,
        updateAt_get?_self _ _ _ _ (updateAt_get?_self _ _ _ _ hc)]
      simp [SChild.forceEnd, hne]
    · intro j hj
      rw [hcontent, updateAt_get?_ne _ _ _ _ hj, updateAt_get?_ne _ _ _ _ hj]
  · intro hn
    have hact : Sequence.onEndActions s = [] := by
      simp [Sequence.onEndActions, hn]
    simp only [Sequence.onEnd, hact, List.foldl]
  · intro i c hi hc hdone
    rw [List.get?_eq_getElem?] at hc
    have hact : Sequence.onEndActions s = [] := by
      simp [Sequence.onEndActions, hi, hc, hdone]
    simp only [Sequence.onEnd, hact, List.foldl]

/-- A sequence force-ended mid-run: current child 0 is still running,
child 1 was never started. -/
def abortSeqDemo : SeqState :=
  { status := Status.done, endReason := some "abort",
    content := [{ status := Status.running, subscribed := true, endReason := none },
                { status := Status.initialized, subscribed := false, endReason := none }],
    iterPos := 1, currentPosition := some 0, currentComponent := some 0 }

/-- Witness for C6 at a concrete input: the running current child is
unsubscribed and then aborted; the not-yet-started sibling is left
untouched. -/
theorem C6_witness :
    Sequence.onEndActions abortSeqDemo =
      [SeqAction.off 0, SeqAction.endChild 0 "abort by sequence"] ∧
    (Sequence.onEnd abortSeqDemo).content.get? 0 =
      some { status := Status.done, subscribed := false,
             endReason := some "abort by sequence" } ∧
    (Sequence.onEnd abortSeqDemo).content.get? 1 =
      some { status := Status.initialized, subscribed := false,
             endReason := none } := by
  have h := (C6_sequence_forced_end abortSeqDemo).1 0
    { status := Status.running, subscribed := true, endReason := none }
    rfl rfl (by decide)
  exact ⟨h.1, h.2.1, by rw [h.2.2 1 (by decide)]; rfl⟩

/-- A parameter bag (`options.parameters`): a record of keyed values.
A JavaScript object is represented as an association list where the
first binding of a key is its value. -/
abbrev Bag := List (String × Int)

/-- Look a key up in a bag. -/
def Bag.get (b : Bag) (k : String) : Option Int :=
  (b.find? (fun kv => kv.1 == k)).map (fun kv => kv.2)

/-- Assign a key in a bag (`bag[k] = v`). -/
def Bag.set (b : Bag) (k : String) (v : Int) : Bag :=
  (k, v) :: b

/-- The object spread `{ ...base, ...p }`: the keys of `p` shadow the
keys of `base`, all other keys of `base` are preserved. -/
def mergeBags (base p : Bag) : Bag :=
  p ++ base

theorem Bag.get_mergeBags (base p : Bag) (k : String) :
    Bag.get (mergeBags base p) k =
      match Bag.get p k with
      | some v => some v
      | none => Bag.get base k := by
  unfold Bag.get mergeBags
  rw [List.find?_append]
  cases h : List.find? (fun kv => kv.1 == k) p <;> simp [h]

/-- The prototype branch of `Loop.onPrepare`
(`template instanceof Component`): for each parameter record, clone the
template and spread the record over the clone's parameter bag.  Object
identity is modelled by a heap of parameter bags addressed by index;
`clone()` allocates a fresh bag at the end of the heap, so clones share
no mutable state with the prototype or with each other.  Returns the
list of allocated content references and the final heap. -/
def Loop.generateClones (protoBag : Bag) (params : List Bag)
    (heap : List Bag) : List Nat × List Bag :=
  match params with
  | [] => ([], heap)
  | p :: rest =>
    let ref := heap.length
    let heap1 := heap ++ [mergeBags protoBag p]
    let out := Loop.generateClones protoBag rest heap1
    (ref :: out.1, out.2)

/-- Dereference a heap cell. -/
def readRef (h : List Bag) (r : Nat) : Bag :=
  h.getD r []

/-- Mutate one key of the bag stored at a heap cell
(`c.options.parameters[k] = v`). -/
def writeParam (h : List Bag) (r : Nat) (k : String) (v : Int) : List Bag :=
  updateAt h r (fun b => Bag.set b k v)

theorem generateClones_fst_get? (protoBag : Bag) (params : List Bag)
    (heap : List Bag) (i : Nat) (p : Bag) (h : params.get? i = some p) :
    (Loop.generateClones protoBag params heap).1.get? i =
      some (heap.length + i) := by
  induction params generalizing heap i with
  | nil => simp at h
  | cons q rest ih =>
    cases i with
    | zero => rfl
    | succ i =>
      have := ih (heap ++ [mergeBags protoBag q]) i (by simpa using h)
      simp only [Loop.generateClones, List.get?_cons_succ]
      rw [this]
      simp
      omega

theorem generateClones_fst_length (protoBag : Bag) (params : List Bag)
    (heap : List Bag) :
    (Loop.generateClones protoBag params heap).1.length = params.length := by
  induction params generalizing heap with
  | nil => rfl
  | cons q rest ih =>
    simp only [Loop.generateClones, List.length_cons]
    rw [ih]

theorem generateClones_snd (protoBag : Bag) (params : List Bag)
    (heap : List Bag) :
    (Loop.generateClones protoBag params heap).2 =
      heap ++ params.map (fun p => mergeBags protoBag p) := by
  induction params generalizing heap with
  | nil => simp [Loop.generateClones]
  | cons q rest ih =>
    simp only [Loop.generateClones, List.map_cons]
    rw [ih, List.append_assoc]
    rfl

theorem writeParam_readRef_ne (h : List Bag) (r r' : Nat) (k : String)
    (v : Int) (hne : r' ≠ r) :
    readRef (writeParam h r k v) r' = readRef h r' := by
  unfold readRef writeParam
  rw [List.getD, List.getD, updateAt_get?_ne _ _ _ _ hne]

theorem readRef_generateClones (protoBag : Bag) (params : List Bag)
    (heap : List Bag) (i : Nat) (p : Bag) (h : params.get? i = some p) :
    readRef (Loop.generateClones protoBag params heap).2 (heap.length + i) =
      mergeBags protoBag p := by
  rw [generateClones_snd]
  unfold readRef
  rw [List.getD, List.get?_eq_getElem?,
    List.getElem?_append_right (by omega)]
  have hsub : heap.length + i - heap.length = i := by omega
  rw [hsub, List.getElem?_map, ← List.get?_eq_getElem?, h]
  rfl

theorem readRef_generateClones_low (protoBag : Bag) (params : List Bag)
    (heap : List Bag) (r : Nat) (hr : r < heap.length) :
    readRef (Loop.generateClones protoBag params heap).2 r =
      readRef heap r := by
  rw [generateClones_snd]
  unfold readRef
  rw [List.getD, List.getD, List.get?_eq_getElem?,
    List.getElem?_append_left hr, ← List.get?_eq_getElem?]

/-- C7: with a prototype template and parameter records `p0..p(n-1)`,
the generated content has length `n`; entry `i` is a freshly allocated
clone (its heap reference `heap.length + i` is distinct from the
prototype's and from every other clone's); the clone's bag is the
shallow merge of the prototype's bag with `pi`, where `pi`'s keys
override and all other keys are preserved; the prototype's bag is
unchanged; and mutating one clone's bag affects neither another clone
nor the prototype. -/
theorem C7_loop_prototype_clones (heap : List Bag) (protoRef : Nat)
    (params : List Bag) (hp : protoRef < heap.length) :
    ((Loop.generateClones (readRef heap protoRef) params heap).1.length =
      params.length) ∧
    (∀ i p, params.get? i = some p →
      (Loop.generateClones (readRef heap protoRef) params heap).1.get? i =
        some (heap.length + i) ∧
      heap.length + i ≠ protoRef ∧
      readRef (Loop.generateClones (readRef heap protoRef) params heap).2
        (heap.length + i) = mergeBags (readRef heap protoRef) p ∧
      (∀ k, Bag.get (mergeBags (readRef heap protoRef) p) k =
        match Bag.get p k with
        | some v => some v
        | none => Bag.get (readRef heap protoRef) k)) ∧
    (readRef (Loop.generateClones (readRef heap protoRef) params heap).2
      protoRef = readRef heap protoRef) ∧
    (∀ i j k v, i ≠ j →
      readRef (writeParam
        (Loop.generateClones (readRef heap protoRef) params heap).2
        (heap.length + i) k v) (heap.length + j) =
        readRef (Loop.generateClones (readRef heap protoRef) params heap).2
          (heap.length + j) ∧
      readRef (writeParam
        (Loop.generateClones (readRef heap protoRef) params heap).2
        (heap.length + i) k v) protoRef = readRef heap protoRef) := by
  refine ⟨generateClones_fst_length _ _ _, ?_, ?_, ?_⟩
  · intro i p h
    exact ⟨generateClones_fst_get? _ _ _ _ _ h, by omega,
      readRef_generateClones _ _ _ _ _ h,
      fun k => Bag.get_mergeBags _ _ k⟩
  · exact readRef_generateClones_low _ _ _ _ hp
  · intro i j k v hij
    refine ⟨writeParam_readRef_ne _ _ _ _ _ (by omega), ?_⟩
    rw [writeParam_readRef_ne _ _ _ _ _ (by omega)]
    exact readRef_generateClones_low _ _ _ _ hp

/-- Witness for C7 at a concrete input: prototype bag `{a: 0, keep: 9}`
at heap cell 0, parameter records `[{a: 1}, {a: 2}]`: two clones at
cells 1 and 2 with `a` overridden and `keep` preserved, and mutating
clone 0 leaves clone 1 and the prototype untouched. -/
theorem C7_witness :
    ((Loop.generateClones (readRef [[("a", 0), ("keep", 9)]] 0)
      [[("a", 1)], [("a", 2)]] [[("a", 0), ("keep", 9)]]).1.length = 2) ∧
    (Bag.get (readRef (Loop.generateClones
      (readRef [[("a", 0), ("keep", 9)]] 0) [[("a", 1)], [("a", 2)]]
      [[("a", 0), ("keep", 9)]]).2 1) "a" = some 1) ∧
    (Bag.get (readRef (Loop.generateClones
      (readRef [[("a", 0), ("keep", 9)]] 0) [[("a", 1)], [("a", 2)]]
      [[("a", 0), ("keep", 9)]]).2 1) "keep" = some 9) ∧
    (readRef (writeParam (Loop.generateClones
      (readRef [[("a", 0), ("keep", 9)]] 0) [[("a", 1)], [("a", 2)]]
      [[("a", 0), ("keep", 9)]]).2 1 "a" 42) 2 =
      readRef (Loop.generateClones (readRef [[("a", 0), ("keep", 9)]] 0)
        [[("a", 1)], [("a", 2)]] [[("a", 0), ("keep", 9)]]).2 2) ∧
    (readRef (writeParam (Loop.generateClones
      (readRef [[("a", 0), ("keep", 9)]] 0) [[("a", 1)], [("a", 2)]]
      [[("a", 0), ("keep", 9)]]).2 1 "a" 42) 0 =
      readRef [[("a", 0), ("keep", 9)]] 0) := by
  have h := C7_loop_prototype_clones [[("a", 0), ("keep", 9)]] 0
    [[("a", 1)], [("a", 2)]] (by decide)
  refine ⟨h.1, ?_, ?_, (h.2.2.2 0 1 "a" 42 (by decide)).1,
    (h.2.2.2 0 1 "a" 42 (by decide)).2⟩
  · have h1 := (h.2.1 0 [("a", 1)] rfl).2.2.1
    norm_num at h1
    rw [h1]
    rfl
  · have h1 := (h.2.1 0 [("a", 1)] rfl).2.2.1
    norm_num at h1
    rw [h1]
    rfl

/-- The factory branch of `Loop.onPrepare` (`isFunction(template)`):
`this.options.content = templateParameters.map((p, i) =>
this.options.template(p, i, this))`. -/
def Loop.generateFromFactory {α β τ : Type} (template : α → Nat → β → τ)
    (loop : β) (params : List α) : List τ :=
  params.mapIdx (fun i p => template p i loop)

/-- C8: with a factory template and effective parameter list
`[p0, ..., p(n-1)]`, the generated content is exactly
`[f(p0, 0, loop), ..., f(p(n-1), n-1, loop)]`, in order, where `loop`
is the loop instance itself. -/
theorem C8_loop_factory {α β τ : Type} (template : α → Nat → β → τ)
    (loop : β) (params : List α) :
    ((Loop.generateFromFactory template loop params).length =
      params.length) ∧
    (∀ i p, params.get? i = some p →
      (Loop.generateFromFactory template loop params).get? i =
        some (template p i loop)) := by
  refine ⟨by simp [Loop.generateFromFactory], ?_⟩
  intro i p h
  rw [Loop.generateFromFactory, List.get?_eq_getElem?, List.getElem?_mapIdx,
    ← List.get?_eq_getElem?, h]
  rfl

/-- Witness for C8 at a concrete input: factory `(p, i, loop) ↦ p + i`
over parameters `[10, 20, 30]` yields `[10, 21, 32]` entrywise. -/
theorem C8_witness :
    ((Loop.generateFromFactory (fun (p : Nat) (i : Nat) (_ : Unit) => p + i)
      () [10, 20, 30]).length = 3) ∧
    ((Loop.generateFromFactory (fun (p : Nat) (i : Nat) (_ : Unit) => p + i)
      () [10, 20, 30]).get? 1 = some 21) := by
  have h := C8_loop_factory (fun (p : Nat) (i : Nat) (_ : Unit) => p + i)
    () [10, 20, 30]
  exact ⟨h.1, h.2 1 20 rfl⟩

/-- The diagnostics a loop's preparation may emit. -/
inductive Diag where
  | missingTemplate
deriving DecidableEq, Repr

/-- The template option of a loop, after the runtime type probe of
`Loop.onPrepare`: a prototype component (carrying its parameter bag),
a factory callable (already closed over the loop instance), or
anything else (`null`, a plain value, ...). -/
inductive Template (τ : Type) where
  | prototype (protoBag : Bag)
  | factory (f : Bag → Nat → τ)
  | invalid

/-- The content-generation dispatch of `Loop.onPrepare`: the prototype
branch clones the template per parameter record (clone construction
abstracted as `mkClone`), the factory branch maps the factory over
(record, index) pairs, and the invalid branch emits the non-fatal
`console.warn` diagnostic and leaves the previous content (the
`content: []` default) untouched.  The function is total: no branch
fails. -/
def Loop.generateContent {τ : Type} (mkClone : Bag → τ) (tmpl : Template τ)
    (priorContent : List τ) (params : List Bag) : List τ × List Diag :=
  match tmpl with
  | Template.prototype protoBag =>
    (params.map (fun p => mkClone (mergeBags protoBag p)), [])
  | Template.factory f => (params.mapIdx (fun i p => f p i), [])
  | Template.invalid => (priorContent, [Diag.missingTemplate])

/-- C9: with a missing or invalid template, `Loop.onPrepare` emits the
non-fatal diagnostic instead of failing and the content list remains
as it was (empty under the default options), so the loop is a
well-defined sequence over no children: its very first step ends it
immediately with reason "completion". -/
theorem C9_invalid_template {τ : Type} (mkClone : Bag → τ)
    (priorContent : List τ) (params : List Bag) :
    (Loop.generateContent mkClone Template.invalid priorContent params =
      (priorContent, [Diag.missingTemplate])) ∧
    (priorContent = [] →
      (Loop.generateContent mkClone Template.invalid priorContent
        params).1 = []) ∧
    ((Sequence.step (Sequence.freshState [])).2 =
      StepResult.ended "completion" ∧
    (Sequence.step (Sequence.freshState [])).1.status = Status.done) := by
  exact ⟨rfl, fun h => by rw [h]; rfl, rfl, rfl⟩

/-- Witness for C9 at a concrete input: empty prior content stays
empty while the diagnostic is emitted. -/
theorem C9_witness :
    Loop.generateContent (fun b => b) Template.invalid ([] : List Bag)
      [[("a", 1)]] = ([], [Diag.missingTemplate]) ∧
    (Loop.generateContent (fun b => b) Template.invalid ([] : List Bag)
      [[("a", 1)]]).1 = [] := by
  have h := C9_invalid_template (fun b => b) ([] : List Bag) [[("a", 1)]]
  exact ⟨h.1, h.2.1 rfl⟩

/-- JavaScript truthiness of the configured `sample.n`: absent or
`undefined` is falsy, the number 0 is falsy, any other number is
truthy. -/
def truthyN : Option Int → Bool
  | none => false
  | some n => n != 0

/-- The effective parameter list computed at the top of
`Loop.onPrepare`: `this.options.sample.n ? this.random.sample(
this.options.templateParameters, this.options.sample.n,
this.options.sample.replace) : this.options.templateParameters`.
The randomness capability's `sample` is passed in as a function; the
second component records whether it was invoked. -/
def Loop.effectiveParameters {α : Type} (sampleN : Option Int)
    (sampleReplace : Bool) (sample : List α → Int → Bool → List α)
    (params : List α) : List α × Bool :=
  if truthyN sampleN then
    (sample params (sampleN.getD 0) sampleReplace, true)
  else (params, false)

/-- C10: the sample operation is invoked exactly when the configured
sample count is truthy; when `sample.n` is absent/undefined or 0 the
effective parameter list is the configured `templateParameters`,
unchanged and in original order — in particular a sample count of 0
yields the full list, not an empty one. -/
theorem C10_sample_truthiness {α : Type} (sampleReplace : Bool)
    (sample : List α → Int → Bool → List α) (params : List α) :
    (Loop.effectiveParameters none sampleReplace sample params =
      (params, false)) ∧
    (Loop.effectiveParameters (some 0) sampleReplace sample params =
      (params, false)) ∧
    (∀ n, (Loop.effectiveParameters n sampleReplace sample params).2 =
      truthyN n) ∧
    (∀ n, truthyN n = false →
      Loop.effectiveParameters n sampleReplace sample params =
        (params, false)) := by
  refine ⟨rfl, rfl, ?_, ?_⟩
  · intro n
    unfold Loop.effectiveParameters
    cases h : truthyN n <;> simp [h]
  · intro n h
    simp [Loop.effectiveParameters, h]

/-- Witness for C10 at a concrete input: `sample.n = 0` keeps the full
three-record parameter list even under a sample function that would
empty it. -/
theorem C10_witness :
    Loop.effectiveParameters (some 0) false
      (fun (_ : List Nat) _ _ => []) [1, 2, 3] = ([1, 2, 3], false) ∧
    truthyN (some 2) = true ∧
    (Loop.effectiveParameters (some 2) false
      (fun (l : List Nat) _ _ => l) [1, 2, 3]).2 = truthyN (some 2) := by
  exact ⟨(C10_sample_truthiness false (fun _ _ _ => []) [1, 2, 3]).2.1,
    rfl, (C10_sample_truthiness false (fun l _ _ => l) [1, 2, 3]).2.2.1
      (some 2)⟩

/-- A child as seen by a running `Parallel`: its status, the last
reason its `end` was called with, and how often `end` actually took
effect (to express "ended exactly once"). -/
structure PChild where
  status : Status
  endReason : Option String
  endCount : Nat
deriving DecidableEq, Repr

/-- `end(reason)` on a parallel child.  Modelled from the spec: ending
an already-done child is a no-op; otherwise the child becomes done,
records the reason and counts one effective end. -/
def PChild.endWith (c : PChild) (reason : Option String) : PChild :=
  if c.status = Status.done then c
  else { status := Status.done, endReason := reason,
         endCount := c.endCount + 1 }

/-- The two join policies accepted by `Promise[this.options.mode]`:
`'all'` (all-finish) and `'race'` (first-finish, the spec's "any"). -/
inductive PMode where
  | all
  | race
deriving DecidableEq, Repr

/-- The state of a running `Parallel`: the configured mode, the
container's own status, whether the completion watcher installed by
`onRun` has already fired, and the children. -/
structure PState where
  mode : PMode
  status : Status
  watcherFired : Bool
  content : List PChild
deriving DecidableEq, Repr

/-- The body of `Parallel.onEnd` applied to one child:
`if (c.status < status.done) { c.end('abort by parallel') }`. -/
def forceEndStraggler (c : PChild) : PChild :=
  if Status.lt c.status Status.done then
    PChild.endWith c (some "abort by parallel")
  else c

/-- `Parallel.onEnd`: force-end every child whose status has not
reached done. -/
def Parallel.onEnd (s : PState) : PState :=
  { s with content := s.content.map forceEndStraggler }

/-- `end()` on the parallel container.  Modelled from the spec: the
base class marks the container done and invokes `onEnd`; ending an
already-done container is a no-op. -/
def Parallel.endContainer (s : PState) : PState :=
  if s.status = Status.done then s
  else Parallel.onEnd { s with status := Status.done }

/-- The resolution condition of
`Promise[mode](content.map(c => c.waitFor('end')))`: under `'all'` the
aggregate resolves once every child's end event has fired, under
`'race'` as soon as one has. -/
def watcherCond (s : PState) : Bool :=
  match s.mode with
  | PMode.all => s.content.all (fun c => decide (c.status = Status.done))
  | PMode.race => s.content.any (fun c => decide (c.status = Status.done))

/-- One scheduling turn of a running `Parallel`: either some running
child's end event fires, or the completion watcher's `.then(() =>
this.end())` callback runs (once its aggregate promise has resolved
and it has not run before). -/
inductive PStep : PState → PState → Prop where
  | childEnds (s : PState) (i : Nat) (c : PChild)
      (h : s.content.get? i = some c) (hr : c.status = Status.running) :
      PStep s { s with content := s.content.set i (c.endWith none) }
  | watcher (s : PState) (hc : watcherCond s = true)
      (hf : s.watcherFired = false) :
      PStep s (Parallel.endContainer { s with watcherFired := true })

/-- Reachability under `PStep`. -/
inductive PReach (init : PState) : PState → Prop where
  | refl : PReach init init
  | step {s t : PState} : PReach init s → PStep s t → PReach init t

/-- A child that has been started and is still running. -/
def runningPChild : PChild :=
  { status := Status.running, endReason := none, endCount := 0 }

/-- The parallel state right after `onRun` issued `run` on all `n`
children and installed the watcher. -/
def initP (m : PMode) (n : Nat) : PState :=
  { mode := m, status := Status.running, watcherFired := false,
    content := List.replicate n runningPChild }

/-- Leaf progress.  Modelled from the spec: a child that ran to
completion contributes 1, a child not yet run contributes its default
0. -/
def PChild.progress (c : PChild) : ℚ :=
  if c.status = Status.done then 1 else 0

/-- `lodash.mean`: the arithmetic mean of a list of numbers. -/
def mean (l : List ℚ) : ℚ :=
  l.sum / (l.length : ℚ)

/-- The shared progress getter of `Sequence` and `Parallel`:
`this.status === status.done ? 1 : mean(content.map(c => c.progress))`. -/
def containerProgress (st : Status) (childProgress : List ℚ) : ℚ :=
  if st = Status.done then 1 else mean childProgress

/-- The `progress` getter of a `Parallel` state. -/
def Parallel.progress (s : PState) : ℚ :=
  containerProgress s.status (s.content.map PChild.progress)

/-- The reachable intermediate state used against C2: in a two-child
all-mode parallel, first one child's end event fires... -/
def allOneDone : PState :=
  { mode := PMode.all, status := Status.running, watcherFired := false,
    content := [{ status := Status.done, endReason := none, endCount := 1 },
                runningPChild] }

/-- ...then the other's: both children are done while the watcher's
`.then` callback has not yet run, so the container is still running. -/
def allBothDone : PState :=
  { mode := PMode.all, status := Status.running, watcherFired := false,
    content := [{ status := Status.done, endReason := none, endCount := 1 },
                { status := Status.done, endReason := none, endCount := 1 }] }

/-- C2 (counterexample): in the reachable state where both children of
a two-child parallel have ended but the completion watcher has not yet
run, the container's progress is the mean of the children's progress,
1, while its status is not done — so "progress equals 1.0 iff status
is done" fails on the code. -/
theorem C2_counterexample :
    PReach (initP PMode.all 2) allBothDone ∧
    Parallel.progress allBothDone = 1 ∧
    allBothDone.status ≠ Status.done := by
  refine ⟨?_, ?_, by decide⟩
  · have h1 : PStep (initP PMode.all 2) allOneDone := by
      have heq : ({ initP PMode.all 2 with
          content := (initP PMode.all 2).content.set 0
            (runningPChild.endWith none) } : PState) = allOneDone := by
        decide
      exact heq ▸ PStep.childEnds (initP PMode.all 2) 0 runningPChild rfl rfl
    have h2 : PStep allOneDone allBothDone := by
      have heq : ({ allOneDone with
          content := allOneDone.content.set 1
            (runningPChild.endWith none) } : PState) = allBothDone := by
        decide
      exact heq ▸ PStep.childEnds allOneDone 1 runningPChild rfl rfl
    exact PReach.step (PReach.step PReach.refl h1) h2
  · norm_num [Parallel.progress, containerProgress, mean, PChild.progress,
      allBothDone]

/-- C2 (amended): a container's progress is 1 when its status is done,
and otherwise is the arithmetic mean of the children's progress values
(children not yet started reporting 0); consequently progress equals
1.0 iff the status is done or the children's mean progress is itself 1
— the latter can hold in reachable intermediate states (see the
counterexample), so equality to 1.0 is implied by, but does not imply,
status done. -/
theorem C2_amended_progress (st : Status) (l : List ℚ) (hne : l ≠ []) :
    (st = Status.done → containerProgress st l = 1) ∧
    (st ≠ Status.done → containerProgress st l = mean l) ∧
    (containerProgress st l = 1 ↔ (st = Status.done ∨ mean l = 1)) ∧
    (∀ c : PChild, c.status ≠ Status.done → PChild.progress c = 0) := by
  refine ⟨fun h => by simp [containerProgress, h],
    fun h => by simp [containerProgress, h], ?_,
    fun c hc => by simp [PChild.progress, hc]⟩
  by_cases h : st = Status.done
  · simp [containerProgress, h]
  · simp [containerProgress, h]

/-- Witness for C2 (amended) at concrete inputs: a running container
with children at progress 1/2 and 1 reports their mean, and a done
container reports 1. -/
theorem C2_amended_witness :
    containerProgress Status.running [1/2, 1] = mean [1/2, 1] ∧
    containerProgress Status.done [1/2, 1] = 1 :=
  ⟨(C2_amended_progress Status.running [1/2, 1]
      (List.cons_ne_nil _ _)).2.1 (by decide),
    (C2_amended_progress Status.done [1/2, 1]
      (List.cons_ne_nil _ _)).1 rfl⟩

/-- Shape of every child of a running parallel: either it has ended
(exactly once) or it is still running, untouched. -/
def childOk (c : PChild) : Prop :=
  (c.status = Status.done ∧ c.endCount = 1) ∨
  (c.status = Status.running ∧ c.endCount = 0 ∧ c.endReason = none)

/-- Inductive invariant of the parallel machine started as
`initP m n`. -/
def PInv (m : PMode) (n : Nat) (s : PState) : Prop :=
  s.mode = m ∧ s.content.length = n ∧
  (∀ c ∈ s.content, childOk c) ∧
  (s.status = Status.done → s.watcherFired = true ∧
    ∀ c ∈ s.content, c.status = Status.done) ∧
  (m = PMode.all → ∀ c ∈ s.content, c.endReason = none)

theorem endContainer_status (s : PState) :
    (Parallel.endContainer s).status = Status.done := by
  unfold Parallel.endContainer
  by_cases h : s.status = Status.done <;> simp [h, Parallel.onEnd]

theorem endContainer_of_done {s : PState} (h : s.status = Status.done) :
    Parallel.endContainer s = s := by
  simp [Parallel.endContainer, h]

theorem forceEndStraggler_done {c : PChild} (h : c.status = Status.done) :
    forceEndStraggler c = c := by
  simp [forceEndStraggler, Status.lt, h, Status.toNat]

theorem forceEndStraggler_running {c : PChild}
    (h : c.status = Status.running) :
    forceEndStraggler c =
      { status := Status.done, endReason := some "abort by parallel",
        endCount := c.endCount + 1 } := by
  simp [forceEndStraggler, Status.lt, h, Status.toNat, PChild.endWith]

theorem forceEndStraggler_ok {c : PChild} (h : childOk c) :
    childOk (forceEndStraggler c) ∧
    (forceEndStraggler c).status = Status.done := by
  rcases h with ⟨hs, hc⟩ | ⟨hs, hc, hr⟩
  · rw [forceEndStraggler_done hs]
    exact ⟨Or.inl ⟨hs, hc⟩, hs⟩
  · rw [forceEndStraggler_running hs]
    exact ⟨Or.inl ⟨rfl, by rw [hc]⟩, rfl⟩

theorem PInv_init (m : PMode) (n : Nat) : PInv m n (initP m n) := by
  refine ⟨rfl, by simp [initP], ?_, ?_, ?_⟩
  · intro c hc
    rw [List.eq_of_mem_replicate hc]
    exact Or.inr ⟨rfl, rfl, rfl⟩
  · intro h
    simp [initP] at h
  · intro _ c hc
    rw [List.eq_of_mem_replicate hc]
    rfl

theorem PInv_step {m : PMode} {n : Nat} {s t : PState}
    (hs : PInv m n s) (h : PStep s t) : PInv m n t := by
  obtain ⟨hmode, hlen, hok, hdone, hall⟩ := hs
  cases h with
  | childEnds i c hget hrun =>
    have hcmem : c ∈ s.content := List.get?_mem hget
    refine ⟨hmode, by simpa using hlen, ?_, ?_, ?_⟩
    · intro c' hc'
      rcases List.mem_or_eq_of_mem_set hc' with h' | h'
      · exact hok c' h'
      · subst h'
        rcases hok c hcmem with ⟨hcd, _⟩ | ⟨_, hcnt, _⟩
        · rw [hrun] at hcd
          cases hcd
        · rw [PChild.endWith]
          rw [if_neg (by rw [hrun]; intro hx; cases hx)]
          exact Or.inl ⟨rfl, by rw [hcnt]⟩
    · intro hd
      have h2 := (hdone hd).2 c hcmem
      rw [hrun] at h2
      cases h2
    · intro hm c' hc'
      rcases List.mem_or_eq_of_mem_set hc' with h' | h'
      · exact hall hm c' h'
      · subst h'
        rw [PChild.endWith, if_neg (by rw [hrun]; intro hx; cases hx)]
  | watcher hc hf =>
    have hsne : s.status ≠ Status.done := by
      intro hd
      rw [(hdone hd).1] at hf
      cases hf
    have ht : Parallel.endContainer { s with watcherFired := true } =
        Parallel.onEnd { s with watcherFired := true,
                                status := Status.done } := by
      simp [Parallel.endContainer, hsne]
    rw [ht]
    refine ⟨hmode, by simp [Parallel.onEnd, hlen], ?_, ?_, ?_⟩
    · intro c' hc'
      rcases List.mem_map.mp hc' with ⟨c, hcmem, rfl⟩
      exact (forceEndStraggler_ok (hok c hcmem)).1
    · intro _
      refine ⟨rfl, ?_⟩
      intro c' hc'
      rcases List.mem_map.mp hc' with ⟨c, hcmem, rfl⟩
      exact (forceEndStraggler_ok (hok c hcmem)).2
    · intro hm c' hc'
      rcases List.mem_map.mp hc' with ⟨c, hcmem, rfl⟩
      have hcd : c.status = Status.done := by
        unfold watcherCond at hc
        rw [hmode, hm] at hc
        exact of_decide_eq_true (List.all_eq_true.mp hc c hcmem)
      rw [forceEndStraggler_done hcd]
      exact hall hm c hcmem

theorem PInv_reach {m : PMode} {n : Nat} {s : PState}
    (h : PReach (initP m n) s) : PInv m n s := by
  induction h with
  | refl => exact PInv_init m n
  | step hr hstep ih => exact PInv_step ih hstep

/-- C4: for a parallel container started over `n ≥ 1` children, in
every reachable state: under the all-finish policy the container is
done only when every child's end has fired (never before, and then no
child was ever aborted), and once all have fired (watcher not yet run)
the watcher transition is enabled and ends the container; under the
first-finish (`race`) policy, as soon as some child's end has fired
the watcher transition is enabled, ends the container and force-ends
exactly the children not yet done with reason "abort by parallel",
incrementing their end count to 1 while children already done are left
untouched; every child's end count never exceeds 1 (ended at most
once); a done container has all children done with end count exactly
1; and forcing the container's end is idempotent. -/
theorem C4_parallel_join (m : PMode) (n : Nat) (s : PState) (hn : 0 < n)
    (hr : PReach (initP m n) s) :
    (m = PMode.all → s.status = Status.done →
      ∀ c ∈ s.content, c.status = Status.done ∧ c.endReason = none) ∧
    (m = PMode.all → (∃ c ∈ s.content, c.status ≠ Status.done) →
      s.status ≠ Status.done) ∧
    (m = PMode.all → (∀ c ∈ s.content, c.status = Status.done) →
      s.watcherFired = false →
      PStep s (Parallel.endContainer { s with watcherFired := true }) ∧
      (Parallel.endContainer
        { s with watcherFired := true }).status = Status.done) ∧
    (m = PMode.race → ∀ i c, s.content.get? i = some c →
      c.status = Status.done → s.watcherFired = false →
      PStep s (Parallel.endContainer { s with watcherFired := true }) ∧
      (Parallel.endContainer
        { s with watcherFired := true }).status = Status.done ∧
      (∀ j d, s.content.get? j = some d →
        (Parallel.endContainer
          { s with watcherFired := true }).content.get? j =
          some (if d.status = Status.done then d
            else { status := Status.done,
                   endReason := some "abort by parallel",
                   endCount := d.endCount + 1 }))) ∧
    (∀ c ∈ s.content, c.endCount ≤ 1) ∧
    (s.status = Status.done →
      ∀ c ∈ s.content, c.status = Status.done ∧ c.endCount = 1) ∧
    (Parallel.endContainer (Parallel.endContainer s) =
      Parallel.endContainer s) := by
  obtain ⟨hmode, hlen, hok, hdone, hall⟩ := PInv_reach hr
  refine ⟨?_, ?_, ?_, ?_, ?_, ?_,
    endContainer_of_done (endContainer_status s)⟩
  · intro hm hd c hc
    exact ⟨(hdone hd).2 c hc, hall hm c hc⟩
  · rintro hm ⟨c, hc, hcs⟩ hd
    exact hcs ((hdone hd).2 c hc)
  · intro hm hcall hf
    have hcond : watcherCond s = true := by
      unfold watcherCond
      rw [hmode, hm]
      exact List.all_eq_true.mpr (fun c hc => decide_eq_true (hcall c hc))
    exact ⟨PStep.watcher s hcond hf, endContainer_status _⟩
  · intro hm i c hget hcd hf
    have hcond : watcherCond s = true := by
      unfold watcherCond
      rw [hmode, hm]
      exact List.any_eq_true.mpr ⟨c, List.get?_mem hget, decide_eq_true hcd⟩
    have hsne : s.status ≠ Status.done := by
      intro hd
      rw [(hdone hd).1] at hf
      cases hf
    refine ⟨PStep.watcher s hcond hf, endContainer_status _, ?_⟩
    intro j d hgetj
    have hcont : (Parallel.endContainer
        { s with watcherFired := true }).content =
        s.content.map forceEndStraggler := by
      simp [Parallel.endContainer, hsne, Parallel.onEnd]
    rw [hcont, List.get?_eq_getElem?, List.getElem?_map,
      ← List.get?_eq_getElem?, hgetj, Option.map_some']
    rcases hok d (List.get?_mem hgetj) with ⟨hds, _⟩ | ⟨hds, _, _⟩
    · rw [forceEndStraggler_done hds, if_pos hds]
    · rw [forceEndStraggler_running hds,
        if_neg (by rw [hds]; intro hx; cases hx)]
  · intro c hc
    rcases hok c hc with ⟨_, h1⟩ | ⟨_, h0, _⟩
    · rw [h1]
    · rw [h0]
      exact Nat.zero_le 1
  · intro hd c hc
    rcases hok c hc with ⟨h1, h2⟩ | ⟨h1, _, _⟩
    · exact ⟨h1, h2⟩
    · have := (hdone hd).2 c hc
      rw [h1] at this
      cases this

/-- A three-child race-mode parallel right after child 0's end event
fired, before the watcher has run. -/
def raceOneDone : PState :=
  { mode := PMode.race, status := Status.running, watcherFired := false,
    content := [{ status := Status.done, endReason := none, endCount := 1 },
                runningPChild, runningPChild] }

/-- Witness for C4 at a concrete input: in the three-child race-mode
state reached after child 0 ended, the watcher transition ends the
container; child 0 (already done) is left untouched while children 1
and 2 are force-ended with reason "abort by parallel" and end count 1;
and end counts never exceed 1. -/
theorem C4_witness :
    PStep raceOneDone
      (Parallel.endContainer { raceOneDone with watcherFired := true }) ∧
    (Parallel.endContainer
      { raceOneDone with watcherFired := true }).status = Status.done ∧
    (Parallel.endContainer
      { raceOneDone with watcherFired := true }).content.get? 0 =
      some { status := Status.done, endReason := none, endCount := 1 } ∧
    (Parallel.endContainer
      { raceOneDone with watcherFired := true }).content.get? 1 =
      some { status := Status.done, endReason := some "abort by parallel",
             endCount := 1 } ∧
    (∀ c ∈ raceOneDone.content, c.endCount ≤ 1) := by
  have hreach : PReach (initP PMode.race 3) raceOneDone := by
    have heq : ({ initP PMode.race 3 with
        content := (initP PMode.race 3).content.set 0
          (runningPChild.endWith none) } : PState) = raceOneDone := by
      decide
    exact PReach.step PReach.refl
      (heq ▸ PStep.childEnds (initP PMode.race 3) 0 runningPChild rfl rfl)
  have h := C4_parallel_join PMode.race 3 raceOneDone (by decide) hreach
  have hrace := h.2.2.2.1 rfl 0
    { status := Status.done, endReason := none, endCount := 1 } rfl rfl rfl
  refine ⟨hrace.1, hrace.2.1, ?_, ?_, h.2.2.2.2.1⟩
  · have h0 := hrace.2.2 0
      { status := Status.done, endReason := none, endCount := 1 } rfl
    rw [h0]
    rfl
  · have h1 := hrace.2.2 1 runningPChild rfl
    rw [h1]
    rfl
